import Mathlib

set_option maxRecDepth 100000

/-!
Verification of the Pepsi tender PDF-parser core (`src/main.py`).

The development shallowly embeds the text-processing core of the parser:
Python strings become `List Char`, the regular expressions of the source are
embedded as values of a small regex AST matched by a backtracking engine that
mirrors the semantics of Python's `re` module (leftmost match, greedy
quantifiers, ordered alternation), and the stateful parser object becomes
explicit state passing.  Fallible operations (Python `IndexError`) are
modelled with `Option`.
-/

/-! ## Character classes

Python's `str.isspace` / `re` `\s` whitespace set, Python's `str.splitlines`
line-break set, and the ASCII classes appearing in the source's patterns. -/

/-- Python whitespace (the `str.isspace` set, which is also what `\s`
matches in a unicode `str` pattern). -/
def isPySpace (c : Char) : Bool :=
  c = ' ' || c = '\t' || c = '\n' || c = '\r' || c = '\x0b' || c = '\x0c' ||
  c = '\x1c' || c = '\x1d' || c = '\x1e' || c = '\x1f' || c = '\x85' ||
  c = '\xa0' || c = ' ' ||
  (' ' ≤ c && c ≤ ' ') ||
  c = ' ' || c = ' ' || c = ' ' || c = ' ' || c = '　'

/-- The line boundaries recognised by Python's `str.splitlines`. -/
def isLineBreak (c : Char) : Bool :=
  c = '\n' || c = '\r' || c = '\x0b' || c = '\x0c' ||
  c = '\x1c' || c = '\x1d' || c = '\x1e' || c = '\x85' ||
  c = ' ' || c = ' '

/-- ASCII decimal digit, the `\d` of the source's date and location patterns. -/
def isDig (c : Char) : Bool := '0' ≤ c && c ≤ '9'

/-- The character class `[A-Z]`. -/
def isUpperAZ (c : Char) : Bool := 'A' ≤ c && c ≤ 'Z'

/-- The character class `[0-9A-Z-]` (also written `[0-9A-Z\-]` in the source). -/
def clsA (c : Char) : Bool := isDig c || isUpperAZ c || c = '-'

/-- The character class `[0-9A-Z,]`. -/
def clsC (c : Char) : Bool := isDig c || isUpperAZ c || c = ','

/-- The character class `[0-9,]`. -/
def clsD (c : Char) : Bool := isDig c || c = ','

/-- `.` under the `re.S` flag: any character. -/
def anyS (_ : Char) : Bool := true

/-- `.` without `re.S`: any character except a newline. -/
def anyNoNl (c : Char) : Bool := c ≠ '\n'

/-! ## Python string primitives over `List Char` -/

/-- `s.strip()`: remove Python whitespace from both ends. -/
def pyStrip (s : List Char) : List Char :=
  ((s.dropWhile isPySpace).reverse.dropWhile isPySpace).reverse

/-- `s.rstrip()`: remove Python whitespace from the right end. -/
def pyRstrip (s : List Char) : List Char :=
  (s.reverse.dropWhile isPySpace).reverse

/-- `s.lstrip("0")`: remove leading `'0'` characters. -/
def lstripZeros (s : List Char) : List Char :=
  s.dropWhile (· = '0')

/-- Index of the first occurrence of `sep` inside `s` (the scan behind
Python's `str.split` and `in`). -/
def findSub (sep : List Char) : List Char → Option Nat
  | [] => if sep.isPrefixOf [] then some 0 else none
  | c :: rest =>
      if sep.isPrefixOf (c :: rest) then some 0
      else (findSub sep rest).map (· + 1)

/-- Fuel-driven worker for `pySplit`; the fuel only bounds the number of
separator occurrences and is always supplied large enough. -/
def pySplitF (sep : List Char) : Nat → List Char → List (List Char)
  | 0, s => [s]
  | fuel + 1, s =>
      match findSub sep s with
      | none => [s]
      | some i => s.take i :: pySplitF sep fuel (s.drop (i + sep.length))

/-- Python `s.split(sep)` for a non-empty separator: split on every
non-overlapping occurrence, left to right. -/
def pySplit (sep s : List Char) : List (List Char) :=
  pySplitF sep (s.length + 1) s

/-- Fuel-driven worker for `pySplitlines`. -/
def pySplitlinesF : Nat → List Char → List (List Char)
  | 0, _ => []
  | _ + 1, [] => []
  | fuel + 1, s =>
      let line := s.takeWhile (fun c => !(isLineBreak c))
      match s.drop line.length with
      | [] => [line]
      | '\r' :: '\n' :: r => line :: pySplitlinesF fuel r
      | _ :: r => line :: pySplitlinesF fuel r

/-- Python `s.splitlines()`. -/
def pySplitlines (s : List Char) : List (List Char) :=
  pySplitlinesF (s.length + 1) s

/-- Fuel-driven worker for `replaceAll`. -/
def replaceAllF (pat rep : List Char) : Nat → List Char → List Char
  | 0, s => s
  | _ + 1, [] => []
  | fuel + 1, c :: rest =>
      if pat ≠ [] && pat.isPrefixOf (c :: rest) then
        rep ++ replaceAllF pat rep fuel ((c :: rest).drop pat.length)
      else
        c :: replaceAllF pat rep fuel rest

/-- Python `s.replace(pat, rep)` for a non-empty pattern: replace every
non-overlapping occurrence, left to right. -/
def replaceAll (pat rep s : List Char) : List Char :=
  replaceAllF pat rep (s.length + 1) s

/-! ## A backtracking regex engine

The AST covers exactly the constructs used by the source's patterns:
character classes, sequencing, ordered alternation, greedy optionals,
greedy star over a character class, and numbered capture groups.  The
matcher is written in continuation-passing style so that it reproduces the
backtracking order of Python's `re` engine (greedy quantifiers try the
longest extent first, alternation tries the left branch first). -/

inductive RE where
  | eps   : RE
  | cls   : (Char → Bool) → RE
  | seq   : RE → RE → RE
  | alt   : RE → RE → RE
  | opt   : RE → RE
  | star  : (Char → Bool) → RE
  | group : Nat → RE → RE

/-- Capture environment: group number paired with captured text; the most
recent binding for a group is listed first. -/
abbrev Caps : Type := List (Nat × List Char)

/-- Value of capture group `n` (empty when the group did not participate). -/
def grpL (n : Nat) (caps : Caps) : List Char :=
  (List.lookup n caps).getD []

/-- Greedy star over a character class, in continuation-passing style:
first try to consume more, then hand the rest to the continuation. -/
def starGreedy (p : Char → Bool) (k : List Char → Caps → Option (Caps × List Char)) :
    List Char → Caps → Option (Caps × List Char)
  | [], caps => k [] caps
  | c :: s, caps =>
      if p c then
        match starGreedy p k s caps with
        | some out => some out
        | none => k (c :: s) caps
      else k (c :: s) caps

/-- The backtracking matcher.  `matchRe r s caps k` matches `r` against a
prefix of `s`, extending `caps`, and passes the rest of the input to the
continuation `k`; `none` propagates a failure back into earlier
backtracking points. -/
def matchRe : RE → List Char → Caps → (List Char → Caps → Option (Caps × List Char)) →
    Option (Caps × List Char)
  | .eps, s, caps, k => k s caps
  | .cls _, [], _, _ => none
  | .cls p, c :: s, caps, k => if p c then k s caps else none
  | .seq a b, s, caps, k =>
      matchRe a s caps (fun s' caps' => matchRe b s' caps' k)
  | .alt a b, s, caps, k =>
      match matchRe a s caps k with
      | some out => some out
      | none => matchRe b s caps k
  | .opt a, s, caps, k =>
      match matchRe a s caps k with
      | some out => some out
      | none => k s caps
  | .star p, s, caps, k => starGreedy p k s caps
  | .group n a, s, caps, k =>
      matchRe a s caps
        (fun s' caps' => k s' ((n, s.take (s.length - s'.length)) :: caps'))

/-- Match `r` at the start of `s` (Python's match attempt at one position);
returns the captures and the remaining input. -/
def matchAt (r : RE) (s : List Char) : Option (Caps × List Char) :=
  matchRe r s [] (fun s' caps => some (caps, s'))

/-- Match `r` at the start of `s` and require the match to end at the end of
the string, as a trailing `$` (outside `re.M`) does: the end of the input,
or just before one final newline. -/
def matchFull (r : RE) (s : List Char) : Option (Caps × List Char) :=
  matchRe r s []
    (fun s' caps => if s' = [] || s' = ['\n'] then some (caps, s') else none)

/-- Python `re.search`: try the match at each position, left to right. -/
def searchRe (r : RE) : List Char → Option (Caps × List Char)
  | [] => matchAt r []
  | c :: rest =>
      match matchAt r (c :: rest) with
      | some out => some out
      | none => searchRe r rest

/-- Fuel-driven worker for `findAllG1`: list of group-1 captures of all
non-overlapping matches, left to right, like Python's `re.findall` on a
single-group pattern (an empty match advances the scan by one character). -/
def findAllG1F (r : RE) : Nat → List Char → List (List Char)
  | 0, _ => []
  | _ + 1, [] =>
      match matchAt r [] with
      | some (caps, _) => [grpL 1 caps]
      | none => []
  | fuel + 1, c :: rest =>
      match matchAt r (c :: rest) with
      | some (caps, remaining) =>
          grpL 1 caps ::
            findAllG1F r fuel
              (if remaining.length < (c :: rest).length then remaining else rest)
      | none => findAllG1F r fuel rest

/-- Python `re.findall` for a pattern with one capture group. -/
def findAllG1 (r : RE) (s : List Char) : List (List Char) :=
  findAllG1F r (s.length + 1) s

/-! ## Pattern constructors -/

/-- Literal character. -/
def litC (c : Char) : RE := .cls (· = c)

/-- Literal string. -/
def strRe (s : List Char) : RE := s.foldr (fun c r => .seq (litC c) r) .eps

/-- Case-insensitive literal string (the `re.I` flag on a literal). -/
def strReCI (s : List Char) : RE :=
  s.foldr (fun c r => .seq (.cls (fun x => x.toLower = c.toLower)) r) .eps

/-- `p+`: one or more characters of a class, greedy. -/
def plusCls (p : Char → Bool) : RE := .seq (.cls p) (.star p)

/-- `p{n}`: exactly `n` characters of a class. -/
def repCls : Nat → (Char → Bool) → RE
  | 0, _ => .eps
  | n + 1, p => .seq (.cls p) (repCls n p)

/-- `p{n,}`: at least `n` characters of a class, greedy. -/
def atLeastCls (n : Nat) (p : Char → Bool) : RE :=
  .seq (repCls n p) (.star p)

/-- Right-nested sequence of a list of regexes. -/
def seqAll (l : List RE) : RE := l.foldr .seq .eps

/-! ## The source's patterns (src/main.py lines 93–111) -/

/-- Greedy `\s+`. -/
def plusSp : RE := plusCls isPySpace

/-- `\d{1,2}`, greedy. -/
def d12 : RE := .seq (.cls isDig) (.opt (.cls isDig))

/-- `\d{2}`. -/
def d2 : RE := .seq (.cls isDig) (.cls isDig)

/-- `\d+`, greedy. -/
def dPlus : RE := plusCls isDig

/-- `LOCATION_ID_REGEX = r"Location ID:\s*(\d+)"`. -/
def LOCATION_ID_RE : RE :=
  seqAll [strRe "Location ID:".data, .star isPySpace, .group 1 dPlus]

/-- `PICKUP_DATE_REGEX = r"PICKUP\n(\d{1,2}/\d{1,2}/\d{2})"`. -/
def PICKUP_DATE_RE : RE :=
  .seq (strRe "PICKUP\n".data)
    (.group 1 (seqAll [d12, litC '/', d12, litC '/', d2]))

/-- `PICKUP_DATE_ALT_REGEX = r"PICKUP\n(\d{1,}/\d{1,}/\d{2})"`. -/
def PICKUP_DATE_ALT_RE : RE :=
  .seq (strRe "PICKUP\n".data)
    (.group 1 (seqAll [dPlus, litC '/', dPlus, litC '/', d2]))

/-- `DELIVERY_DATE_REGEX = r"DELIVERY\n(\d{1,2}\/\d{1,2}\/\d{2})"`. -/
def DELIVERY_DATE_RE : RE :=
  .seq (strRe "DELIVERY\n".data)
    (.group 1 (seqAll [d12, litC '/', d12, litC '/', d2]))

/-- `DELIVERY_DATE_ALT_REGEX` — defined in the source identically to
`DELIVERY_DATE_REGEX`. -/
def DELIVERY_DATE_ALT_RE : RE :=
  .seq (strRe "DELIVERY\n".data)
    (.group 1 (seqAll [d12, litC '/', d12, litC '/', d2]))

/-- `LOAD_NUMBER_REGEX = r"Load Number:(.*)"` (no `re.S`: the dot stops at a
newline). -/
def LOAD_NUMBER_RE : RE :=
  .seq (strRe "Load Number:".data) (.group 1 (.star anyNoNl))

/-- `TEMP_REGEX = r"Item Desc.PU Number D Number Apt IDSAP Order#(.*)Pallets"`,
searched with `re.S` (the unescaped dot after `Desc` matches any character). -/
def TEMP_RE : RE :=
  seqAll [strRe "Item Desc".data, .cls anyS,
          strRe "PU Number D Number Apt IDSAP Order#".data,
          .group 1 (.star anyS), strRe "Pallets".data]

/-- `ALTERNATE_TEMP_REGEX = r"(OMS.*|OTHERS.*)\s+.*Page\s\d+ of \d+"`,
searched with `re.S`. -/
def ALTERNATE_TEMP_RE : RE :=
  seqAll [.group 1 (.alt (.seq (strRe "OMS".data) (.star anyS))
                         (.seq (strRe "OTHERS".data) (.star anyS))),
          plusSp, .star anyS, strRe "Page".data, .cls isPySpace,
          dPlus, strRe " of ".data, dPlus]

/-- `SHIP_TO_REGEX = r"Location Name:\s+(.*)ARRIVE"`, searched with
`re.S | re.M`. -/
def SHIP_TO_RE : RE :=
  seqAll [strRe "Location Name:".data, plusSp,
          .group 1 (.star anyS), strRe "ARRIVE".data]

/-- First branch of `TEMP_CLEANUP_REGEX`:
`(?:[0-9A-Z-]{5,})\s+(?:[0-9A-Z-]{3,})\s+(?:[0-9A-Z\-]+)\s+([0-9A-Z,]+)\s+([0-9,]+)\s+([0-9,]+)\s+([0-9,]+)`. -/
def TEMP_CLEANUP_BRANCH1 : RE :=
  seqAll [atLeastCls 5 clsA, plusSp, atLeastCls 3 clsA, plusSp,
          plusCls clsA, plusSp, .group 1 (plusCls clsC), plusSp,
          .group 2 (plusCls clsD), plusSp, .group 3 (plusCls clsD), plusSp,
          .group 4 (plusCls clsD)]

/-- Second branch of `TEMP_CLEANUP_REGEX`:
`([0-9,]+)\s+([0-9,]+)\s+([0-9,]+)\s+([0-9,]+)`. -/
def TEMP_CLEANUP_BRANCH2 : RE :=
  seqAll [.group 5 (plusCls clsD), plusSp, .group 6 (plusCls clsD), plusSp,
          .group 7 (plusCls clsD), plusSp, .group 8 (plusCls clsD)]

/-- `TEMP_CLEANUP_REGEX`, the alternation of the two branches. -/
def TEMP_CLEANUP_RE : RE := .alt TEMP_CLEANUP_BRANCH1 TEMP_CLEANUP_BRANCH2

/-- `REGEX`, the line-item row pattern:
`^([0-9A-Z-]{5,})\s+([0-9A-Z-]{3,})\s+([0-9A-Z\-]+)\s+(?:([A-Z]{3})\s+)?([0-9A-Z,]+)\s+([0-9,]+)\s+([0-9,]+)\s+([0-9,]+)$`. -/
def ROW_RE : RE :=
  seqAll [.group 1 (atLeastCls 5 clsA), plusSp,
          .group 2 (atLeastCls 3 clsA), plusSp,
          .group 3 (plusCls clsA), plusSp,
          .opt (.seq (.group 4 (repCls 3 isUpperAZ)) plusSp),
          .group 5 (plusCls clsC), plusSp,
          .group 6 (plusCls clsD), plusSp,
          .group 7 (plusCls clsD), plusSp,
          .group 8 (plusCls clsD)]

/-- `STOP_ONE_ADDRESS_REGEX`, searched case-insensitively (`re.I`). -/
def STOP_ONE_ADDRESS_RE : RE :=
  seqAll [strReCI "DC Milton ON DWD".data, plusSp,
          strReCI "Address:".data, plusSp,
          strReCI "1890 READING COURT".data, plusSp,
          strReCI "Appointment Info".data, plusSp,
          strReCI "MILTON, ON L9T2X8".data]

/-- `HEADER_SPLIT`, the column banner of the line-item table. -/
def HEADER_SPLIT_C : List Char :=
  "PU Number Item Desc. PepsiCo Order# SAP Order# D Number PO Number Apt ID Pieces Pallets Weight Volume".data

/-- The secondary header marker used by the date-extraction fallbacks
(`text.split("Item Desc.PU Number D Number Apt IDSAP Order#")`). -/
def ALT_MARKER_C : List Char :=
  "Item Desc.PU Number D Number Apt IDSAP Order#".data

/-! ## Header extraction (src/main.py lines 114–118 and 266–353) -/

/-- `get_location_id`: all matches of the location pattern; if there are at
least two, the second with leading zeros stripped; else empty. -/
def get_location_id (text : List Char) : List Char :=
  let ms := findAllG1 LOCATION_ID_RE text
  if 2 ≤ ms.length then lstripZeros (ms.getD 1 []) else []

/-- `_extract_pickup_date`. -/
def extract_pickup_date (text : List Char) : List Char :=
  match searchRe PICKUP_DATE_RE text with
  | some (c, _) => grpL 1 c
  | none =>
      let parts := pySplit ALT_MARKER_C text
      if 1 < parts.length then
        match searchRe PICKUP_DATE_ALT_RE (parts.getD 1 []) with
        | some (c, _) => grpL 1 c
        | none => []
      else []

/-- `_extract_delivery_date`. -/
def extract_delivery_date (text : List Char) : List Char :=
  match searchRe DELIVERY_DATE_RE text with
  | some (c, _) => grpL 1 c
  | none =>
      let parts := pySplit ALT_MARKER_C text
      if 1 < parts.length then
        match searchRe DELIVERY_DATE_ALT_RE (parts.getD 1 []) with
        | some (c, _) => grpL 1 c
        | none => []
      else []

/-- `_extract_invoice_ref`. -/
def extract_invoice_ref (text : List Char) : List Char :=
  match searchRe LOAD_NUMBER_RE text with
  | some (c, _) => pyStrip (grpL 1 c)
  | none => []

/-- `re.sub(re.compile(rf'^{TEMP_CLEANUP_REGEX}[\s\S]*$', re.MULTILINE), '', s)`:
delete everything from the first position that starts a line (position 0 or a
position right after a `'\n'`) and at which `TEMP_CLEANUP_REGEX` matches —
the trailing `[\s\S]*$` of the compiled pattern extends every such match to
the end of the string.  The boolean argument records whether the current
position starts a line. -/
def truncateFrom (r : RE) : Bool → List Char → List Char
  | _, [] => []
  | atStart, c :: rest =>
      if atStart && (matchAt r (c :: rest)).isSome then []
      else c :: truncateFrom r (c = '\n') rest

/-- `_extract_temp`: three overwriting capture stages, then the multiline
truncation and a right strip. -/
def extract_temp (text : List Char) : List Char :=
  let t0 : List Char :=
    match searchRe TEMP_RE text with
    | some (c, _) => pyStrip (grpL 1 c)
    | none => []
  let t1 :=
    match searchRe ALTERNATE_TEMP_RE text with
    | some (c, _) => pyStrip (grpL 1 c)
    | none => t0
  let t2 :=
    match searchRe ALTERNATE_TEMP_RE t1 with
    | some (c, _) => pyStrip (grpL 1 c)
    | none => t1
  pyRstrip (truncateFrom TEMP_CLEANUP_RE true t2)

/-- The post-processing the ship-to/ship-from extractors apply to the
captured text: `.replace("Address: ", "").replace("Appointment Info\n", "").strip()`. -/
def stripShipLabels (v : List Char) : List Char :=
  pyStrip (replaceAll "Appointment Info\n".data [] (replaceAll "Address: ".data [] v))

/-- `_extract_ship_to`: requires the banner split to yield more than two
parts, then searches the second part. -/
def extract_ship_to (text : List Char) : List Char :=
  let parts := pySplit HEADER_SPLIT_C text
  if 2 < parts.length then
    match searchRe SHIP_TO_RE (parts.getD 1 []) with
    | some (c, _) => stripShipLabels (grpL 1 c)
    | none => []
  else []

/-- `_extract_ship_from`: requires the banner split to yield more than one
part, then searches the first part. -/
def extract_ship_from (text : List Char) : List Char :=
  let parts := pySplit HEADER_SPLIT_C text
  if 1 < parts.length then
    match searchRe SHIP_TO_RE (parts.getD 0 []) with
    | some (c, _) => stripShipLabels (grpL 1 c)
    | none => []
  else []

/-- The header-level data computed once per document
(src/main.py lines 187–198). -/
structure HeaderData where
  vendorname : List Char
  pickupDate : List Char
  deliveryDate : List Char
  invoiceRef : List Char
  shipTo : List Char
  ship_from : List Char
  temp : List Char
  locationId : List Char
  stopId : List Char
  filename : List Char

/-- The `header_data` dictionary of `_process_pdf`. -/
def extractHeader (text fname : List Char) : HeaderData where
  vendorname := "Pepsi Co Tender".data
  pickupDate := extract_pickup_date text
  deliveryDate := extract_delivery_date text
  invoiceRef := extract_invoice_ref text
  shipTo := extract_ship_to text
  ship_from := extract_ship_from text
  temp := extract_temp text
  locationId := get_location_id text
  stopId := if (searchRe STOP_ONE_ADDRESS_RE text).isSome then "21200Y".data else []
  filename := fname

/-! ## Line-item tokenization and row projection
(src/main.py lines 203–247) -/

/-- `re.match(REGEX, line.strip())`: the anchored row match on the stripped
line, yielding the capture groups. -/
def rowMatch (line : List Char) : Option Caps :=
  (matchFull ROW_RE (pyStrip line)).map (·.1)

/-- `record[i] = v` on a Python list: in bounds it updates, out of bounds it
raises `IndexError` (modelled as `none`). -/
def setSlot (l : List (List Char)) (i : Nat) (v : List Char) :
    Option (List (List Char)) :=
  if i < l.length then some (l.set i v) else none

/-- The sixteen fixed-index writes of the loop body of `_process_pdf`, in
the source's order: first the header assignments `record[0] = vendorname`,
`record[1] = pickupDate`, `record[2] = deliveryDate`, `record[8] = shipTo`,
`record[9] = temp`, `record[10] = invoiceRef`, `record[12] = locationId`,
`record[13] = stopId`, `record[14] = filename`, `record[15] = ship_from`,
then the line-item assignments `record[3] = m.group(3)`,
`record[4] = m.group(5)`, `record[5] = m.group(6)`, `record[6] = m.group(7)`,
`record[7] = m.group(8)`, `record[11] = m.group(1)`. -/
def recordWrites (hd : HeaderData) (caps : Caps) : List (Nat × List Char) :=
  [(0, hd.vendorname), (1, hd.pickupDate), (2, hd.deliveryDate),
   (8, hd.shipTo), (9, hd.temp), (10, hd.invoiceRef), (12, hd.locationId),
   (13, hd.stopId), (14, hd.filename), (15, hd.ship_from),
   (3, grpL 3 caps), (4, grpL 5 caps), (5, grpL 6 caps), (6, grpL 7 caps),
   (7, grpL 8 caps), (11, grpL 1 caps)]

/-- The positional record written by the loop body of `_process_pdf`:
`[""] * column_count` followed by the sixteen fixed-index writes of
`recordWrites`, each a Python `record[i] = v` that raises `IndexError`
out of bounds. -/
def buildRecord (cols : Nat) (hd : HeaderData) (caps : Caps) :
    Option (List (List Char)) :=
  (recordWrites hd caps).foldlM (fun r p => setSlot r p.1 p.2)
    (List.replicate cols ([] : List Char))

/-- One descriptor of the configured `format` list: an optional 1-based slot
position and the output column name. -/
structure FieldDesc where
  id : Option Nat
  sql_column_name : List Char

/-- An output row: a mapping in Python-dict insertion order. -/
abbrev SqlRow : Type := List (List Char × List Char)

/-- Python dict assignment `m[k] = v`: overwrite in place if the key exists,
append otherwise. -/
def dictSet (m : SqlRow) (k v : List Char) : SqlRow :=
  if m.any (fun p => p.1 = k) then
    m.map (fun p => if p.1 = k then (k, v) else p)
  else m ++ [(k, v)]

/-- The projection loop of `_process_pdf`: for each descriptor, skip it when
`field.get("id")` is falsy (absent or zero), otherwise write
`record[idx - 1]` (out of bounds raises `IndexError`, modelled as `none`)
under the descriptor's column name. -/
def projectFrom : List FieldDesc → List (List Char) → SqlRow → Option SqlRow
  | [], _, m => some m
  | f :: rest, record, m =>
      match f.id with
      | none => projectFrom rest record m
      | some idx =>
          if idx = 0 then projectFrom rest record m
          else
            match record[idx - 1]? with
            | some v => projectFrom rest record (dictSet m f.sql_column_name v)
            | none => none

/-- Row projection: descriptors applied in order to an empty mapping. -/
def project (fmt : List FieldDesc) (record : List (List Char)) : Option SqlRow :=
  projectFrom fmt record []

/-- The per-line loop of `_process_pdf`: skip lines that do not match the
row pattern, and for matching lines build the positional record and project
it; a raised `IndexError` aborts the whole loop (`none`). -/
def processLines (fmt : List FieldDesc) (cols : Nat) (hd : HeaderData) :
    List (List Char) → Option (List SqlRow)
  | [] => some []
  | line :: rest =>
      match rowMatch line with
      | none => processLines fmt cols hd rest
      | some caps => do
          let r ← buildRecord cols hd caps
          let row ← project fmt r
          let rows ← processLines fmt cols hd rest
          pure (row :: rows)

/-- The line-item part of `_process_pdf`: split the text on the column
banner; when the banner is absent the record list is empty, otherwise the
second part is split into lines and processed. -/
def processRecords (fmt : List FieldDesc) (cols : Nat) (hd : HeaderData)
    (text : List Char) : Option (List SqlRow) :=
  let parts := pySplit HEADER_SPLIT_C text
  if 1 < parts.length then
    processLines fmt cols hd (pySplitlines (parts.getD 1 []))
  else some []

/-- The state of a `LAShipmentCreationPdfParser` object after `__init__`:
the configuration fields read from `config.json`.  The parser never writes
these fields after construction. -/
structure ParserState where
  format : List FieldDesc
  column_count : Nat

/-- One `_process_pdf` call on already-extracted text, with the object state
threaded explicitly: it returns the header data and the record list together
with the (unchanged) object state. -/
def process_pdf_run (st : ParserState) (text fname : List Char) :
    (HeaderData × Option (List SqlRow)) × ParserState :=
  let hd := extractHeader text fname
  ((hd, processRecords st.format st.column_count hd text), st)

/-! ## Lemmas about the string primitives -/

theorem findSub_eq_none_iff (sep s : List Char) :
    findSub sep s = none ↔ ¬ sep <:+: s := by
  induction s with
  | nil =>
      constructor
      · intro h hinf
        rw [List.infix_nil] at hinf
        subst hinf
        simp [findSub] at h
      · intro h
        rw [List.infix_nil] at h
        simp only [findSub, ite_eq_right_iff]
        intro hp
        exact absurd (List.prefix_nil.mp (List.isPrefixOf_iff_prefix.mp hp)) h
  | cons c rest ih =>
      simp only [findSub]
      by_cases hp : sep.isPrefixOf (c :: rest)
      · simp only [if_pos hp]
        constructor
        · intro h; cases h
        · intro h
          exact absurd (List.IsPrefix.isInfix (List.isPrefixOf_iff_prefix.mp hp)) h
      · simp only [if_neg hp, Option.map_eq_none', ih, List.infix_cons_iff]
        constructor
        · intro h hor
          rcases hor with hpre | hinf
          · exact hp (List.isPrefixOf_iff_prefix.mpr hpre)
          · exact h hinf
        · intro h hinf
          exact h (Or.inr hinf)

theorem findSub_some_le {sep s : List Char} {i : Nat} (h : findSub sep s = some i) :
    i + sep.length ≤ s.length := by
  induction s generalizing i with
  | nil =>
      simp only [findSub] at h
      split at h
      · cases h
        rename_i hp
        have hsep : sep = [] := List.prefix_nil.mp (List.isPrefixOf_iff_prefix.mp hp)
        simp [hsep]
      · cases h
  | cons c rest ih =>
      simp only [findSub] at h
      split at h
      · cases h
        rename_i hp
        have := List.IsPrefix.length_le (List.isPrefixOf_iff_prefix.mp hp)
        simpa using this
      · rcases Option.map_eq_some'.mp h with ⟨j, hj, rfl⟩
        have := ih hj
        simp only [List.length_cons]
        omega

theorem findSub_some_isPrefix {sep s : List Char} {i : Nat} (h : findSub sep s = some i) :
    sep <+: s.drop i := by
  induction s generalizing i with
  | nil =>
      simp only [findSub] at h
      split at h
      · cases h
        rename_i hp
        exact List.isPrefixOf_iff_prefix.mp hp
      · cases h
  | cons c rest ih =>
      simp only [findSub] at h
      split at h
      · cases h
        rename_i hp
        exact List.isPrefixOf_iff_prefix.mp hp
      · rcases Option.map_eq_some'.mp h with ⟨j, hj, rfl⟩
        simpa using ih hj

theorem findSub_min {sep s : List Char} {i : Nat} (h : findSub sep s = some i) :
    ∀ j < i, ¬ sep <+: s.drop j := by
  induction s generalizing i with
  | nil =>
      simp only [findSub] at h
      split at h
      · cases h
        intro j hj
        omega
      · cases h
  | cons c rest ih =>
      simp only [findSub] at h
      split at h
      · cases h
        intro j hj
        omega
      · rcases Option.map_eq_some'.mp h with ⟨k, hk, rfl⟩
        intro j hj
        cases j with
        | zero =>
            intro hpre
            rename_i hp
            exact hp (List.isPrefixOf_iff_prefix.mpr (by simpa using hpre))
        | succ j' =>
            have := ih hk j' (by omega)
            simpa using this

theorem pySplitF_congr (sep : List Char) (hsep : sep ≠ []) :
    ∀ f₁ f₂ s, s.length < f₁ → s.length < f₂ → pySplitF sep f₁ s = pySplitF sep f₂ s := by
  intro f₁
  induction f₁ with
  | zero =>
      intro f₂ s h₁ _
      omega
  | succ f₁ ih =>
      intro f₂ s h₁ h₂
      cases f₂ with
      | zero => omega
      | succ f₂ =>
          cases hf : findSub sep s with
          | none => simp only [pySplitF, hf]
          | some i =>
              have hle := findSub_some_le hf
              have hpos : 1 ≤ sep.length := List.length_pos.mpr hsep
              have hdl : (s.drop (i + sep.length)).length < s.length := by
                rw [List.length_drop]
                omega
              simp only [pySplitF, hf]
              rw [ih f₂ (s.drop (i + sep.length)) (by omega) (by omega)]

theorem pySplit_of_none {sep s : List Char} (h : findSub sep s = none) :
    pySplit sep s = [s] := by
  simp [pySplit, pySplitF, h]

theorem pySplit_of_some {sep s : List Char} {i : Nat} (hsep : sep ≠ [])
    (h : findSub sep s = some i) :
    pySplit sep s = s.take i :: pySplit sep (s.drop (i + sep.length)) := by
  have hle := findSub_some_le h
  have hpos : 1 ≤ sep.length := List.length_pos.mpr hsep
  show pySplitF sep (s.length + 1) s = _
  simp only [pySplitF, h]
  congr 1
  exact pySplitF_congr sep hsep _ _ _
    (by rw [List.length_drop]; omega)
    (by rw [List.length_drop]; omega)

theorem pySplit_ne_nil (sep t : List Char) : pySplit sep t ≠ [] := by
  show pySplitF sep (t.length + 1) t ≠ []
  simp only [pySplitF]
  split <;> simp

/-- The part of `s` after an occurrence of `sep` at index `i`, up to the
next occurrence of `sep` (or to the end when there is none). -/
def segAfter (sep s : List Char) (i : Nat) : List Char :=
  let rest := s.drop (i + sep.length)
  match findSub sep rest with
  | some j => rest.take j
  | none => rest

theorem pySplit_getD_one {sep s : List Char} {i : Nat} (hsep : sep ≠ [])
    (h : findSub sep s = some i) :
    (pySplit sep s).getD 1 [] = segAfter sep s i := by
  rw [pySplit_of_some hsep h]
  cases hr : findSub sep (s.drop (i + sep.length)) with
  | none => simp [pySplit_of_none hr, segAfter, hr]
  | some j => simp [pySplit_of_some hsep hr, segAfter, hr]

theorem pySplit_one_lt_length {sep s : List Char} {i : Nat} (hsep : sep ≠ [])
    (h : findSub sep s = some i) :
    1 < (pySplit sep s).length := by
  rw [pySplit_of_some hsep h]
  have := pySplit_ne_nil sep (s.drop (i + sep.length))
  cases hp : pySplit sep (s.drop (i + sep.length)) with
  | nil => exact absurd hp this
  | cons a l => simp

/-! ## The engine only captures substrings of its input

These lemmas justify the "preserved byte-for-byte" part of the row-field
claim: every capture recorded by a successful match is a contiguous
substring of the matched input. -/

/-- Every capture in the environment is a contiguous substring of `t`. -/
def CapsGood (t : List Char) (caps : Caps) : Prop :=
  ∀ p ∈ caps, p.2 <:+: t

theorem capsGood_nil (t : List Char) : CapsGood t [] := by
  intro p hp
  cases hp

theorem isInfix_of_prefix_suffix {l s t : List Char} (h1 : l <+: s) (h2 : s <:+ t) :
    l <:+: t :=
  List.IsInfix.trans (List.IsPrefix.isInfix h1) (List.IsSuffix.isInfix h2)

theorem starGreedy_good (t : List Char) (p : Char → Bool) :
    ∀ (s : List Char) (caps : Caps)
      (k : List Char → Caps → Option (Caps × List Char)),
      s <:+ t → CapsGood t caps →
      (∀ s' caps' out, s' <:+ s → CapsGood t caps' → k s' caps' = some out →
          CapsGood t out.1 ∧ out.2 <:+ s') →
      ∀ out, starGreedy p k s caps = some out → CapsGood t out.1 ∧ out.2 <:+ s := by
  intro s
  induction s with
  | nil =>
      intro caps k _ hcaps hk out h
      exact hk [] caps out (List.suffix_refl []) hcaps h
  | cons c s₀ ih =>
      intro caps k hs hcaps hk out h
      simp only [starGreedy] at h
      by_cases hpc : p c
      · rw [if_pos hpc] at h
        cases hstar : starGreedy p k s₀ caps with
        | some outx =>
            rw [hstar] at h
            cases h
            have hs₀ : s₀ <:+ c :: s₀ := List.suffix_cons c s₀
            have := ih caps k (List.IsSuffix.trans hs₀ hs) hcaps
              (fun s' caps' out2 hsub hg hkk =>
                hk s' caps' out2 (List.IsSuffix.trans hsub hs₀) hg hkk)
              out hstar
            exact ⟨this.1, List.IsSuffix.trans this.2 hs₀⟩
        | none =>
            rw [hstar] at h
            exact hk (c :: s₀) caps out (List.suffix_refl _) hcaps h
      · rw [if_neg hpc] at h
        exact hk (c :: s₀) caps out (List.suffix_refl _) hcaps h

theorem matchRe_good (t : List Char) :
    ∀ (r : RE) (s : List Char) (caps : Caps)
      (k : List Char → Caps → Option (Caps × List Char)),
      s <:+ t → CapsGood t caps →
      (∀ s' caps' out, s' <:+ s → CapsGood t caps' → k s' caps' = some out →
          CapsGood t out.1 ∧ out.2 <:+ s') →
      ∀ out, matchRe r s caps k = some out → CapsGood t out.1 ∧ out.2 <:+ s := by
  intro r
  induction r with
  | eps =>
      intro s caps k _ hcaps hk out h
      exact hk s caps out (List.suffix_refl s) hcaps h
  | cls p =>
      intro s caps k hs hcaps hk out h
      cases s with
      | nil => cases h
      | cons c s₀ =>
          simp only [matchRe] at h
          by_cases hpc : p c
          · rw [if_pos hpc] at h
            have hs₀ : s₀ <:+ c :: s₀ := List.suffix_cons c s₀
            have := hk s₀ caps out hs₀ hcaps h
            exact ⟨this.1, List.IsSuffix.trans this.2 hs₀⟩
          · rw [if_neg hpc] at h
            cases h
  | seq a b iha ihb =>
      intro s caps k hs hcaps hk out h
      simp only [matchRe] at h
      refine iha s caps _ hs hcaps ?_ out h
      intro s' caps' out2 hsub hg hkk
      exact ihb s' caps' k (List.IsSuffix.trans hsub hs) hg
        (fun s'' caps'' out3 hsub2 hg2 hkk2 =>
          hk s'' caps'' out3 (List.IsSuffix.trans hsub2 hsub) hg2 hkk2)
        out2 hkk
  | alt a b iha ihb =>
      intro s caps k hs hcaps hk out h
      simp only [matchRe] at h
      cases ha : matchRe a s caps k with
      | some outx =>
          rw [ha] at h
          cases h
          exact iha s caps k hs hcaps hk out ha
      | none =>
          rw [ha] at h
          exact ihb s caps k hs hcaps hk out h
  | opt a iha =>
      intro s caps k hs hcaps hk out h
      simp only [matchRe] at h
      cases ha : matchRe a s caps k with
      | some outx =>
          rw [ha] at h
          cases h
          exact iha s caps k hs hcaps hk out ha
      | none =>
          rw [ha] at h
          exact hk s caps out (List.suffix_refl s) hcaps h
  | star p =>
      intro s caps k hs hcaps hk out h
      exact starGreedy_good t p s caps k hs hcaps hk out h
  | group n a iha =>
      intro s caps k hs hcaps hk out h
      simp only [matchRe] at h
      refine iha s caps _ hs hcaps ?_ out h
      intro s' caps' out2 hsub hg hkk
      refine hk s' ((n, s.take (s.length - s'.length)) :: caps') out2 hsub ?_ hkk
      intro q hq
      rcases List.mem_cons.mp hq with hq | hq
      · subst hq
        exact isInfix_of_prefix_suffix (List.take_prefix _ s) hs
      · exact hg q hq

theorem matchFull_capsGood {r : RE} {u : List Char} {caps : Caps}
    {rem : List Char} (h : matchFull r u = some (caps, rem)) :
    CapsGood u caps := by
  have := matchRe_good u r u []
    (fun s' caps' => if s' = [] || s' = ['\n'] then some (caps', s') else none)
    (List.suffix_refl u) (capsGood_nil u) ?hk (caps, rem) h
  · exact this.1
  case hk =>
    intro s' caps' out hsub hg hkk
    dsimp only at hkk
    split at hkk
    · cases hkk
      exact ⟨hg, List.suffix_refl s'⟩
    · cases hkk

theorem lookup_mem {n : Nat} {caps : Caps} {v : List Char}
    (h : List.lookup n caps = some v) : (n, v) ∈ caps := by
  induction caps with
  | nil => cases h
  | cons q rest ih =>
      obtain ⟨m, w⟩ := q
      rw [List.lookup_cons] at h
      by_cases hnm : n = m
      · subst hnm
        simp at h
        subst h
        exact List.mem_cons_self _ _
      · have hbeq : (n == m) = false := beq_false_of_ne hnm
        rw [hbeq] at h
        exact List.mem_cons_of_mem _ (ih h)

theorem pyStrip_isInfix (s : List Char) : pyStrip s <:+: s := by
  have h1 : (s.dropWhile isPySpace).reverse.dropWhile isPySpace <:+
      (s.dropWhile isPySpace).reverse := List.dropWhile_suffix _
  have h2 : pyStrip s <+: s.dropWhile isPySpace := by
    have := List.reverse_prefix.mpr h1
    rwa [List.reverse_reverse] at this
  have h3 : s.dropWhile isPySpace <:+ s := List.dropWhile_suffix _
  exact isInfix_of_prefix_suffix h2 h3

/-- Every group value of a successful row match is a contiguous substring
of the original (unstripped) line. -/
theorem rowMatch_groups_isInfix {line : List Char} {caps : Caps}
    (h : rowMatch line = some caps) (n : Nat) : grpL n caps <:+: line := by
  unfold rowMatch at h
  rcases Option.map_eq_some'.mp h with ⟨⟨caps', rem⟩, hm, hc⟩
  cases hc
  have hgood := matchFull_capsGood hm
  unfold grpL
  cases hl : List.lookup n caps' with
  | none => exact List.nil_infix
  | some v =>
      simp only [Option.getD_some]
      exact List.IsInfix.trans (hgood _ (lookup_mem hl)) (pyStrip_isInfix line)

/-! ## Record-construction lemmas -/

theorem setSlot_of_lt (l : List (List Char)) (i : Nat) (v : List Char)
    (h : i < l.length) : setSlot l i v = some (l.set i v) := by
  simp [setSlot, h]

theorem setSlot_of_ge (l : List (List Char)) (i : Nat) (v : List Char)
    (h : l.length ≤ i) : setSlot l i v = none := by
  simp only [setSlot, ite_eq_right_iff]
  intro hlt
  omega

/-- The record produced by the sixteen in-bounds writes of the loop body. -/
def recFull (cols : Nat) (hd : HeaderData) (caps : Caps) : List (List Char) :=
  ((((((((((((((((List.replicate cols ([] : List Char)).set 0 hd.vendorname).set 1
    hd.pickupDate).set 2 hd.deliveryDate).set 8 hd.shipTo).set 9 hd.temp).set 10
    hd.invoiceRef).set 12 hd.locationId).set 13 hd.stopId).set 14
    hd.filename).set 15 hd.ship_from).set 3 (grpL 3 caps)).set 4
    (grpL 5 caps)).set 5 (grpL 6 caps)).set 6 (grpL 7 caps)).set 7
    (grpL 8 caps)).set 11 (grpL 1 caps)

theorem buildRecord_of_le (cols : Nat) (hd : HeaderData) (caps : Caps)
    (h : 16 ≤ cols) : buildRecord cols hd caps = some (recFull cols hd caps) := by
  have h0 : 0 < cols := by omega
  have h1 : 1 < cols := by omega
  have h2 : 2 < cols := by omega
  have h3 : 3 < cols := by omega
  have h4 : 4 < cols := by omega
  have h5 : 5 < cols := by omega
  have h6 : 6 < cols := by omega
  have h7 : 7 < cols := by omega
  have h8 : 8 < cols := by omega
  have h9 : 9 < cols := by omega
  have h10 : 10 < cols := by omega
  have h11 : 11 < cols := by omega
  have h12 : 12 < cols := by omega
  have h13 : 13 < cols := by omega
  have h14 : 14 < cols := by omega
  have h15 : 15 < cols := by omega
  simp only [buildRecord, recordWrites, recFull, setSlot, List.foldlM_cons,
    List.foldlM_nil, List.length_set, List.length_replicate,
    h0, h1, h2, h3, h4, h5, h6, h7, h8, h9, h10, h11, h12, h13, h14, h15,
    if_true, Option.bind_eq_bind, Option.some_bind, Option.pure_def]

theorem foldlM_setSlot_none :
    ∀ (ws : List (Nat × List Char)) (r : List (List Char)),
      (∃ w ∈ ws, r.length ≤ w.1) →
      ws.foldlM (fun r p => setSlot r p.1 p.2) r = none := by
  intro ws
  induction ws with
  | nil =>
      rintro r ⟨w, hw, _⟩
      cases hw
  | cons q rest ih =>
      rintro r ⟨w, hw, hlen⟩
      rw [List.foldlM_cons]
      by_cases hq : q.1 < r.length
      · rw [setSlot_of_lt r q.1 q.2 hq]
        simp only [Option.bind_eq_bind, Option.some_bind]
        rcases List.mem_cons.mp hw with rfl | hmem
        · omega
        · exact ih (r.set q.1 q.2) ⟨w, hmem, by rwa [List.length_set]⟩
      · rw [setSlot_of_ge r q.1 q.2 (by omega)]
        rfl

theorem buildRecord_of_lt (cols : Nat) (hd : HeaderData) (caps : Caps)
    (h : cols < 16) : buildRecord cols hd caps = none := by
  apply foldlM_setSlot_none
  refine ⟨(15, hd.ship_from), ?_, ?_⟩
  · simp [recordWrites]
  · rw [List.length_replicate]
    omega

theorem buildRecord_isSome_iff (cols : Nat) (hd : HeaderData) (caps : Caps) :
    (buildRecord cols hd caps).isSome ↔ 16 ≤ cols := by
  constructor
  · intro h
    by_contra hc
    rw [buildRecord_of_lt cols hd caps (by omega)] at h
    cases h
  · intro h
    rw [buildRecord_of_le cols hd caps h]
    rfl

theorem recFull_slots (cols : Nat) (hd : HeaderData) (caps : Caps)
    (h : 16 ≤ cols) :
    (recFull cols hd caps)[0]? = some hd.vendorname ∧
    (recFull cols hd caps)[1]? = some hd.pickupDate ∧
    (recFull cols hd caps)[2]? = some hd.deliveryDate ∧
    (recFull cols hd caps)[3]? = some (grpL 3 caps) ∧
    (recFull cols hd caps)[4]? = some (grpL 5 caps) ∧
    (recFull cols hd caps)[5]? = some (grpL 6 caps) ∧
    (recFull cols hd caps)[6]? = some (grpL 7 caps) ∧
    (recFull cols hd caps)[7]? = some (grpL 8 caps) ∧
    (recFull cols hd caps)[8]? = some hd.shipTo ∧
    (recFull cols hd caps)[9]? = some hd.temp ∧
    (recFull cols hd caps)[10]? = some hd.invoiceRef ∧
    (recFull cols hd caps)[11]? = some (grpL 1 caps) ∧
    (recFull cols hd caps)[12]? = some hd.locationId ∧
    (recFull cols hd caps)[13]? = some hd.stopId ∧
    (recFull cols hd caps)[14]? = some hd.filename ∧
    (recFull cols hd caps)[15]? = some hd.ship_from := by
  have h0 : 0 < cols := by omega
  have h1 : 1 < cols := by omega
  have h2 : 2 < cols := by omega
  have h3 : 3 < cols := by omega
  have h4 : 4 < cols := by omega
  have h5 : 5 < cols := by omega
  have h6 : 6 < cols := by omega
  have h7 : 7 < cols := by omega
  have h8 : 8 < cols := by omega
  have h9 : 9 < cols := by omega
  have h10 : 10 < cols := by omega
  have h11 : 11 < cols := by omega
  have h12 : 12 < cols := by omega
  have h13 : 13 < cols := by omega
  have h14 : 14 < cols := by omega
  have h15 : 15 < cols := by omega
  refine ⟨?_, ?_, ?_, ?_, ?_, ?_, ?_, ?_, ?_, ?_, ?_, ?_, ?_, ?_, ?_, ?_⟩ <;>
    simp [recFull, List.getElem?_set, List.length_set, List.length_replicate,
      h0, h1, h2, h3, h4, h5, h6, h7, h8, h9, h10, h11, h12, h13, h14, h15]

theorem recFull_slots_high (cols : Nat) (hd : HeaderData) (caps : Caps)
    (j : Nat) (hj : 16 ≤ j) :
    (recFull cols hd caps)[j]? = (List.replicate cols ([] : List Char))[j]? := by
  have n0 : 0 ≠ j := by omega
  have n1 : 1 ≠ j := by omega
  have n2 : 2 ≠ j := by omega
  have n3 : 3 ≠ j := by omega
  have n4 : 4 ≠ j := by omega
  have n5 : 5 ≠ j := by omega
  have n6 : 6 ≠ j := by omega
  have n7 : 7 ≠ j := by omega
  have n8 : 8 ≠ j := by omega
  have n9 : 9 ≠ j := by omega
  have n10 : 10 ≠ j := by omega
  have n11 : 11 ≠ j := by omega
  have n12 : 12 ≠ j := by omega
  have n13 : 13 ≠ j := by omega
  have n14 : 14 ≠ j := by omega
  have n15 : 15 ≠ j := by omega
  simp [recFull, List.getElem?_set, n0, n1, n2, n3, n4, n5, n6, n7, n8, n9,
    n10, n11, n12, n13, n14, n15]

/-- Claim C1: for every line of the line-item region that matches the row
pattern, the record emitted for it takes the order number (positional slot
11) from capture group 1, the PO number (slot 3) from capture group 3,
cases (slot 4) from group 5, pallets (slot 5) from group 6, weight (slot 6)
from group 7 and cubes (slot 7) from group 8, each capture a contiguous
substring of the matched line (so preserved byte-for-byte, embedded
thousands-separators included); groups 2 and 4 are discarded: every other
slot holds exactly one header value or stays empty. -/
theorem rowRecordFields (cols : Nat) (hd : HeaderData) (line : List Char)
    (caps : Caps) (hcols : 16 ≤ cols) (hm : rowMatch line = some caps) :
    ∃ r, buildRecord cols hd caps = some r ∧
      r[11]? = some (grpL 1 caps) ∧ r[3]? = some (grpL 3 caps) ∧
      r[4]? = some (grpL 5 caps) ∧ r[5]? = some (grpL 6 caps) ∧
      r[6]? = some (grpL 7 caps) ∧ r[7]? = some (grpL 8 caps) ∧
      (∀ n, grpL n caps <:+: line) ∧
      r[0]? = some hd.vendorname ∧ r[1]? = some hd.pickupDate ∧
      r[2]? = some hd.deliveryDate ∧ r[8]? = some hd.shipTo ∧
      r[9]? = some hd.temp ∧ r[10]? = some hd.invoiceRef ∧
      r[12]? = some hd.locationId ∧ r[13]? = some hd.stopId ∧
      r[14]? = some hd.filename ∧ r[15]? = some hd.ship_from ∧
      ∀ j, 16 ≤ j → r[j]? = (List.replicate cols ([] : List Char))[j]? := by
  obtain ⟨q0, q1, q2, q3, q4, q5, q6, q7, q8, q9, q10, q11, q12, q13, q14, q15⟩ :=
    recFull_slots cols hd caps hcols
  exact ⟨recFull cols hd caps, buildRecord_of_le cols hd caps hcols,
    q11, q3, q4, q5, q6, q7,
    fun n => rowMatch_groups_isInfix hm n,
    q0, q1, q2, q8, q9, q10, q12, q13, q14, q15,
    fun j hj => recFull_slots_high cols hd caps j hj⟩

/-- The sample row line used by the witnesses. -/
def lineW1 : List Char := "AAAAA BBB C1 1,000 2 3 4".data

/-- The capture environment the row pattern produces on `lineW1`. -/
def capsW1 : Caps :=
  [(8, "4".data), (7, "3".data), (6, "2".data), (5, "1,000".data),
   (3, "C1".data), (2, "BBB".data), (1, "AAAAA".data)]

/-- A fixed header-data sample for witnesses. -/
def hdW : HeaderData :=
  ⟨"V".data, "P".data, "D".data, "I".data, "ST".data, "SF".data,
   "T".data, "L".data, "S".data, "F".data⟩

/-- Witness for `rowRecordFields` at a concrete line with a
thousands-separator in the cases column. -/
theorem rowRecordFields_witness :
    (16 ≤ 16 ∧ rowMatch lineW1 = some capsW1) ∧
    ∃ r, buildRecord 16 hdW capsW1 = some r ∧
      r[11]? = some (grpL 1 capsW1) ∧ r[3]? = some (grpL 3 capsW1) ∧
      r[4]? = some (grpL 5 capsW1) ∧ r[5]? = some (grpL 6 capsW1) ∧
      r[6]? = some (grpL 7 capsW1) ∧ r[7]? = some (grpL 8 capsW1) ∧
      (∀ n, grpL n capsW1 <:+: lineW1) ∧
      r[0]? = some hdW.vendorname ∧ r[1]? = some hdW.pickupDate ∧
      r[2]? = some hdW.deliveryDate ∧ r[8]? = some hdW.shipTo ∧
      r[9]? = some hdW.temp ∧ r[10]? = some hdW.invoiceRef ∧
      r[12]? = some hdW.locationId ∧ r[13]? = some hdW.stopId ∧
      r[14]? = some hdW.filename ∧ r[15]? = some hdW.ship_from ∧
      ∀ j, 16 ≤ j → r[j]? = (List.replicate 16 ([] : List Char))[j]? :=
  ⟨⟨by norm_num, by decide⟩,
   rowRecordFields 16 hdW lineW1 capsW1 (by norm_num) (by decide)⟩

/-- Claim C2: for every document text, location-id extraction returns the
digits of the second `Location ID: <digits>` occurrence with leading zeros
stripped whenever at least two occurrences exist, and the empty string
whenever fewer than two exist. -/
theorem locationIdSpec (text : List Char) :
    (2 ≤ (findAllG1 LOCATION_ID_RE text).length →
      get_location_id text =
        lstripZeros ((findAllG1 LOCATION_ID_RE text).getD 1 [])) ∧
    ((findAllG1 LOCATION_ID_RE text).length < 2 →
      get_location_id text = []) := by
  constructor
  · intro h
    simp only [get_location_id]
    rw [if_pos h]
  · intro h
    simp only [get_location_id]
    rw [if_neg (by omega)]

/-- The two-occurrence sample text of the claim. -/
def locTextW : List Char := "Location ID: 00123 x Location ID: 00456 y".data

/-- Witness for `locationIdSpec`: on the sample with occurrences `00123`
and `00456` the result is `456`. -/
theorem locationIdSpec_witness :
    2 ≤ (findAllG1 LOCATION_ID_RE locTextW).length ∧
    get_location_id locTextW = "456".data :=
  ⟨by decide, ((locationIdSpec locTextW).1 (by decide)).trans (by decide)⟩

/-- Claim C3: for every document text that does not contain the column
banner, the tokenizer returns an empty record list — `some []`, never an
error. -/
theorem noBannerNoRecords (fmt : List FieldDesc) (cols : Nat)
    (hd : HeaderData) (text : List Char) (h : ¬ HEADER_SPLIT_C <:+: text) :
    processRecords fmt cols hd text = some [] := by
  have hf : findSub HEADER_SPLIT_C text = none := (findSub_eq_none_iff _ _).mpr h
  simp only [processRecords]
  rw [pySplit_of_none hf]
  norm_num

/-- Witness for `noBannerNoRecords` on a small bannerless text. -/
theorem noBannerNoRecords_witness :
    ¬ HEADER_SPLIT_C <:+: "hello world".data ∧
    processRecords [] 16 hdW "hello world".data = some [] :=
  ⟨by decide, noBannerNoRecords [] 16 hdW "hello world".data (by decide)⟩

/-- Claim C9: extraction is deterministic and carries no hidden mutable
state: the embedding threads the parser-object state (its configuration,
the only fields the Python object has) explicitly, the state comes back
unchanged, and a second run on the returned state yields byte-identical
header data and record lists. -/
theorem extractionDeterministic (st : ParserState) (text fname : List Char) :
    (process_pdf_run st text fname).2 = st ∧
    (process_pdf_run (process_pdf_run st text fname).2 text fname).1 =
      (process_pdf_run st text fname).1 :=
  ⟨rfl, rfl⟩

/-! ## Row-projection lemmas -/

/-- The keys of a row mapping. -/
def rowKeys (m : SqlRow) : List (List Char) := m.map (fun p => p.1)

theorem dictSet_fresh (m : SqlRow) (k v : List Char) (h : k ∉ rowKeys m) :
    dictSet m k v = m ++ [(k, v)] := by
  unfold dictSet
  rw [if_neg]
  intro hc
  rcases List.any_eq_true.mp hc with ⟨p, hp, he⟩
  exact h (by
    rcases of_decide_eq_true he with rfl
    exact List.mem_map.mpr ⟨p, hp, rfl⟩)

theorem projectFrom_spec :
    ∀ (fmt : List FieldDesc) (record : List (List Char)) (m : SqlRow),
      (fmt.filterMap (fun f => f.id.map (fun _ => f.sql_column_name))).Nodup →
      (∀ f ∈ fmt, ∀ n, f.id = some n → 1 ≤ n ∧ n ≤ record.length) →
      (∀ f ∈ fmt, f.id.isSome → f.sql_column_name ∉ rowKeys m) →
      projectFrom fmt record m =
        some (m ++ fmt.filterMap (fun f =>
          f.id.map (fun n => (f.sql_column_name, record.getD (n - 1) [])))) := by
  intro fmt
  induction fmt with
  | nil =>
      intro record m _ _ _
      simp [projectFrom]
  | cons f rest ih =>
      intro record m hnodup hbound hfresh
      cases hid : f.id with
      | none =>
          simp only [projectFrom, hid, List.filterMap_cons, Option.map_none']
          exact ih record m (by simpa [hid] using hnodup)
            (fun g hg => hbound g (List.mem_cons_of_mem f hg))
            (fun g hg => hfresh g (List.mem_cons_of_mem f hg))
      | some n =>
          have hb := hbound f (List.mem_cons_self f rest) n hid
          have hn0 : ¬ n = 0 := by omega
          have hget : record[n - 1]? = some (record.getD (n - 1) []) := by
            rw [List.getD_eq_getElem?_getD]
            cases hx : record[n - 1]? with
            | none =>
                rw [List.getElem?_eq_none_iff] at hx
                omega
            | some v => rfl
          simp only [projectFrom, hid, hget, if_neg hn0]
          rw [List.filterMap_cons] at hnodup ⊢
          simp only [hid, Option.map_some'] at hnodup ⊢
          have hk : f.sql_column_name ∉ rowKeys m :=
            hfresh f (List.mem_cons_self f rest) (by simp [hid])
          rw [dictSet_fresh m _ _ hk]
          rw [ih record (m ++ [(f.sql_column_name, record.getD (n - 1) [])])
            (List.nodup_cons.mp hnodup).2
            (fun g hg => hbound g (List.mem_cons_of_mem f hg))
            ?fresh]
          · rw [List.append_assoc]
            rfl
          case fresh =>
            intro g hg hgid
            unfold rowKeys
            rw [List.map_append, List.mem_append]
            rintro (hm | hone)
            · exact hfresh g (List.mem_cons_of_mem f hg) hgid hm
            · simp only [List.map_cons, List.map_nil, List.mem_singleton] at hone
              have : g.sql_column_name ∈
                  rest.filterMap (fun f => f.id.map (fun _ => f.sql_column_name)) := by
                apply List.mem_filterMap.mpr
                refine ⟨g, hg, ?_⟩
                cases hgid2 : g.id with
                | none => rw [hgid2] at hgid; cases hgid
                | some nn => simp
              rw [hone] at this
              exact (List.nodup_cons.mp hnodup).1 this

/-- Claim C5: row projection writes, for each descriptor carrying a slot
position, the positional-array value at index `id - 1` under the
descriptor's output column name, in configuration order; descriptors
without an id are skipped, and positional slots referenced by no descriptor
do not appear in the output. -/
theorem projectionSpec (fmt : List FieldDesc) (record : List (List Char))
    (hnodup : (fmt.filterMap (fun f => f.id.map (fun _ => f.sql_column_name))).Nodup)
    (hbound : ∀ f ∈ fmt, ∀ n, f.id = some n → 1 ≤ n ∧ n ≤ record.length) :
    project fmt record =
      some (fmt.filterMap (fun f =>
        f.id.map (fun n => (f.sql_column_name, record.getD (n - 1) [])))) := by
  unfold project
  rw [projectFrom_spec fmt record [] hnodup hbound (by intro g _ _; simp [rowKeys])]
  rfl

/-- The claim's example format: `[{id:1, name:"a"}, {id:3, name:"c"}]`. -/
def fmtW5 : List FieldDesc := [⟨some 1, "a".data⟩, ⟨some 3, "c".data⟩]

/-- Witness for `projectionSpec`: with `columnCount = 3` and array
`["x","y","z"]` the projection is exactly `{"a": "x", "c": "z"}`. -/
theorem projectionSpec_witness :
    project fmtW5 ["x".data, "y".data, "z".data] =
      some [("a".data, "x".data), ("c".data, "z".data)] :=
  (projectionSpec fmtW5 ["x".data, "y".data, "z".data]
    (by decide) (by decide)).trans (by decide)

/-! ## Out-of-bounds record writes -/

theorem processLines_err (fmt : List FieldDesc) (cols : Nat) (hd : HeaderData)
    (hcols : cols < 16) :
    ∀ lines : List (List Char), (∃ line ∈ lines, (rowMatch line).isSome) →
      processLines fmt cols hd lines = none := by
  intro lines
  induction lines with
  | nil =>
      rintro ⟨line, hmem, _⟩
      cases hmem
  | cons l rest ih =>
      rintro ⟨line, hmem, hsome⟩
      cases hrm : rowMatch l with
      | none =>
          simp only [processLines, hrm]
          apply ih
          rcases List.mem_cons.mp hmem with rfl | hm
          · rw [hrm] at hsome
            cases hsome
          · exact ⟨line, hm, hsome⟩
      | some caps =>
          simp only [processLines, hrm]
          rw [buildRecord_of_lt cols hd caps hcols]
          rfl

/-- Claim C10 (amended): the loop body writes the positional slots 0–15, so
record construction succeeds exactly when the configured column count is at
least 16; with fewer than 16 columns, a document whose scanned segment
(between the first banner occurrence and the next one, or the end) contains
a row-pattern line makes `_process_pdf` raise `IndexError` (modelled
`none`) instead of producing rows. -/
theorem recordIndexBounds :
    (∀ cols hd caps, (buildRecord cols hd caps).isSome ↔ 16 ≤ cols) ∧
    (∀ fmt cols hd text i, cols < 16 →
      findSub HEADER_SPLIT_C text = some i →
      (∃ line ∈ pySplitlines (segAfter HEADER_SPLIT_C text i),
        (rowMatch line).isSome) →
      processRecords fmt cols hd text = none) := by
  constructor
  · exact buildRecord_isSome_iff
  · intro fmt cols hd text i hcols hfind hex
    have hsep : HEADER_SPLIT_C ≠ [] := by decide
    simp only [processRecords]
    rw [if_pos (pySplit_one_lt_length hsep hfind),
      pySplit_getD_one hsep hfind]
    exact processLines_err fmt cols hd hcols _ hex

/-- A document with one banner and one row line, used by the C10 witness. -/
def tW10 : List Char :=
  HEADER_SPLIT_C ++ "\nAAAAA BBB C1 1,000 2 3 4\n".data

/-- Witness for `recordIndexBounds`: with `columnCount = 3` and a row line
in the scanned segment, processing yields `none` (an `IndexError`). -/
theorem recordIndexBounds_witness :
    (3 < 16 ∧ findSub HEADER_SPLIT_C tW10 = some 0 ∧
      lineW1 ∈ pySplitlines (segAfter HEADER_SPLIT_C tW10 0) ∧
      (rowMatch lineW1).isSome) ∧
    processRecords [] 3 hdW tW10 = none :=
  ⟨⟨by norm_num, by decide, by decide, by decide⟩,
   recordIndexBounds.2 [] 3 hdW tW10 0 (by norm_num) (by decide)
     ⟨lineW1, by decide, by decide⟩⟩

/-- A document with two banner occurrences whose only row line comes after
the second occurrence. -/
def tX10 : List Char :=
  HEADER_SPLIT_C ++ "\nno rows here\n".data ++ HEADER_SPLIT_C ++
    "\nAAAAA BBB C1 1,000 2 3 4\n".data

/-- Counterexample to claim C10 as stated: `tX10` contains the banner and a
row-pattern line, the column count 3 is smaller than 16, yet processing
returns `some []` — no `IndexError` — because the row line lies beyond the
second banner occurrence and is never scanned. -/
theorem recordIndexBounds_cex :
    HEADER_SPLIT_C <:+: tX10 ∧
    (lineW1 ∈ pySplitlines tX10 ∧ (rowMatch lineW1).isSome) ∧
    processRecords [] 3 hdW tX10 = some [] :=
  ⟨by decide, ⟨by decide, by decide⟩, by decide⟩

/-! ## Scope of the line-item region (claim C4) -/

/-- The tokenizer as claim C4 states it: candidate lines are all lines of
the entire text following the first banner occurrence (so also past a
second banner occurrence). -/
def claimC4Records (fmt : List FieldDesc) (cols : Nat) (hd : HeaderData)
    (text : List Char) : Option (List SqlRow) :=
  match findSub HEADER_SPLIT_C text with
  | some i =>
      processLines fmt cols hd
        (pySplitlines (text.drop (i + HEADER_SPLIT_C.length)))
  | none => some []

/-- A single-column format projecting the order-number slot. -/
def fmtOrder : List FieldDesc := [⟨some 12, "vendorno".data⟩]

/-- A document with two banner occurrences and one row line in each
segment. -/
def tX4 : List Char :=
  HEADER_SPLIT_C ++ "\nAAAAA BBB C1 1,000 2 3 4\n".data ++ HEADER_SPLIT_C ++
    "\nDDDDD EEE F2 5 6 7 8\n".data

/-- Counterexample to claim C4 as stated: on `tX4` the code emits one
record (the row after the second banner occurrence is not parsed), while
the claimed behaviour would emit two. -/
theorem lineRegionScope_cex :
    processRecords fmtOrder 16 hdW tX4 =
      some [[("vendorno".data, "AAAAA".data)]] ∧
    claimC4Records fmtOrder 16 hdW tX4 =
      some [[("vendorno".data, "AAAAA".data)],
            [("vendorno".data, "DDDDD".data)]] :=
  ⟨by decide, by decide⟩

/-- Claim C4 (amended): for every document text containing the banner, the
candidate lines are the newline-delimited lines of the segment between the
end of the first banner occurrence and the start of the next occurrence (or
the end of the text), processed in source order; a row-pattern line after a
second banner occurrence is not parsed.  The first two conjuncts pin down
that `i` is the first occurrence. -/
theorem lineRegionScope (fmt : List FieldDesc) (cols : Nat) (hd : HeaderData)
    (text : List Char) (i : Nat)
    (hfind : findSub HEADER_SPLIT_C text = some i) :
    HEADER_SPLIT_C <+: text.drop i ∧
    (∀ j < i, ¬ HEADER_SPLIT_C <+: text.drop j) ∧
    processRecords fmt cols hd text =
      processLines fmt cols hd (pySplitlines (segAfter HEADER_SPLIT_C text i)) := by
  have hsep : HEADER_SPLIT_C ≠ [] := by decide
  refine ⟨findSub_some_isPrefix hfind, findSub_min hfind, ?_⟩
  simp only [processRecords]
  rw [if_pos (pySplit_one_lt_length hsep hfind), pySplit_getD_one hsep hfind]

/-- Witness for `lineRegionScope` on the one-banner document `tW10`. -/
theorem lineRegionScope_witness :
    findSub HEADER_SPLIT_C tW10 = some 0 ∧
    (HEADER_SPLIT_C <+: tW10.drop 0 ∧
     (∀ j < 0, ¬ HEADER_SPLIT_C <+: tW10.drop j) ∧
     processRecords fmtOrder 16 hdW tW10 =
       processLines fmtOrder 16 hdW
         (pySplitlines (segAfter HEADER_SPLIT_C tW10 0))) :=
  ⟨by decide, lineRegionScope fmtOrder 16 hdW tW10 0 (by decide)⟩

/-! ## Scope of the ship-to extraction (claim C6) -/

/-- The ship-to extraction as claim C6 states it: only requiring the banner
to appear at least once (at least two split segments). -/
def claimC6ShipTo (text : List Char) : List Char :=
  let parts := pySplit HEADER_SPLIT_C text
  if 1 < parts.length then
    match searchRe SHIP_TO_RE (parts.getD 1 []) with
    | some (c, _) => stripShipLabels (grpL 1 c)
    | none => []
  else []

/-- A document with exactly one banner occurrence followed by a
`Location Name: … ARRIVE` block. -/
def tX6 : List Char :=
  HEADER_SPLIT_C ++ "\nLocation Name: SOMEPLACE ARRIVE\n".data

/-- Counterexample to claim C6 as stated: on `tX6` the banner appears (the
split yields two segments) and the pattern matches after it, yet the code
returns the empty string because it demands more than two segments; the
claimed behaviour returns `SOMEPLACE`. -/
theorem shipToScope_cex :
    HEADER_SPLIT_C <:+: tX6 ∧
    claimC6ShipTo tX6 = "SOMEPLACE".data ∧
    extract_ship_to tX6 = [] :=
  ⟨by decide, by decide, by decide⟩

/-- Claim C6 (amended): ship-to extraction requires the banner to occur at
least twice (the split must yield more than two segments); it then searches
the segment between the first and second occurrences and, on a match,
returns the capture with the `Address: ` and `Appointment Info\n` labels
stripped and whitespace trimmed; in every other case it returns the empty
string. -/
theorem shipToScope (text : List Char) :
    (findSub HEADER_SPLIT_C text = none → extract_ship_to text = []) ∧
    (∀ i, findSub HEADER_SPLIT_C text = some i →
      findSub HEADER_SPLIT_C (text.drop (i + HEADER_SPLIT_C.length)) = none →
      extract_ship_to text = []) ∧
    (∀ i, findSub HEADER_SPLIT_C text = some i →
      (findSub HEADER_SPLIT_C (text.drop (i + HEADER_SPLIT_C.length))).isSome →
      extract_ship_to text =
        (match searchRe SHIP_TO_RE (segAfter HEADER_SPLIT_C text i) with
         | some (c, _) => stripShipLabels (grpL 1 c)
         | none => [])) := by
  have hsep : HEADER_SPLIT_C ≠ [] := by decide
  refine ⟨?_, ?_, ?_⟩
  · intro hf
    simp only [extract_ship_to]
    rw [pySplit_of_none hf]
    norm_num
  · intro i hf hr
    simp only [extract_ship_to]
    rw [pySplit_of_some hsep hf, pySplit_of_none hr]
    norm_num
  · intro i hf hr
    rw [Option.isSome_iff_exists] at hr
    obtain ⟨j, hj⟩ := hr
    simp only [extract_ship_to]
    have hlen : 2 <
        (pySplit HEADER_SPLIT_C text).length := by
      rw [pySplit_of_some hsep hf, pySplit_of_some hsep hj]
      have := pySplit_ne_nil HEADER_SPLIT_C
        ((text.drop (i + HEADER_SPLIT_C.length)).drop (j + HEADER_SPLIT_C.length))
      simp only [List.length_cons]
      cases hp : pySplit HEADER_SPLIT_C
          ((text.drop (i + HEADER_SPLIT_C.length)).drop (j + HEADER_SPLIT_C.length)) with
      | nil => exact absurd hp (this)
      | cons a l => simp [hp]
    rw [if_pos hlen, pySplit_getD_one hsep hf]

/-- A document with two banner occurrences and a ship-to block between
them, used by the C6 witness. -/
def tW6 : List Char :=
  HEADER_SPLIT_C ++ "\nLocation Name: Address: PLANT 7 ARRIVE\n".data ++
    HEADER_SPLIT_C

/-- Witness for `shipToScope` on `tW6` (two banner occurrences, matching
block between them). -/
theorem shipToScope_witness :
    (findSub HEADER_SPLIT_C tW6 = some 0 ∧
     (findSub HEADER_SPLIT_C (tW6.drop (0 + HEADER_SPLIT_C.length))).isSome) ∧
    extract_ship_to tW6 =
      (match searchRe SHIP_TO_RE (segAfter HEADER_SPLIT_C tW6 0) with
       | some (c, _) => stripShipLabels (grpL 1 c)
       | none => []) :=
  ⟨⟨by decide, by decide⟩, (shipToScope tW6).2.2 0 (by decide) (by decide)⟩

/-! ## The date-extraction fallback (claim C7) -/

/-- Pickup extraction as claim C7 states it: the fallback search reuses the
same 1-to-2-digit month/day date pattern as the primary search. -/
def claimC7Pickup (text : List Char) : List Char :=
  match searchRe PICKUP_DATE_RE text with
  | some (c, _) => grpL 1 c
  | none =>
      let parts := pySplit ALT_MARKER_C text
      if 1 < parts.length then
        match searchRe PICKUP_DATE_RE (parts.getD 1 []) with
        | some (c, _) => grpL 1 c
        | none => []
      else []

/-- A document whose only pickup date has a three-digit first component,
sitting after the secondary header marker. -/
def tX7 : List Char := ALT_MARKER_C ++ "\nPICKUP\n123/4/25".data

/-- Counterexample to claim C7 as stated: on `tX7` the code's fallback
pattern `\d{1,}/\d{1,}/\d{2}` accepts `123/4/25`, while the claimed
1-to-2-digit pattern matches nothing, so the claimed result is empty. -/
theorem dateFallback_cex :
    extract_pickup_date tX7 = "123/4/25".data ∧ claimC7Pickup tX7 = [] :=
  ⟨by decide, by decide⟩

/-- Pickup extraction, stated from the amended claim: first date token of
the form `\d{1,2}/\d{1,2}/\d{2}` right after `PICKUP` and a newline; if
none, retry on the segment following the first occurrence of the secondary
header marker (up to its next occurrence) with the wider pattern
`\d{1,}/\d{1,}/\d{2}`; empty when both fail or the marker is absent. -/
def pickupDateSpec (text : List Char) : List Char :=
  match searchRe PICKUP_DATE_RE text with
  | some (c, _) => grpL 1 c
  | none =>
      match findSub ALT_MARKER_C text with
      | none => []
      | some i =>
          match searchRe PICKUP_DATE_ALT_RE (segAfter ALT_MARKER_C text i) with
          | some (c, _) => grpL 1 c
          | none => []

/-- Delivery extraction, stated from the amended claim: identical to the
pickup extraction except for the label, and with the fallback using the
same 1-to-2-digit pattern as the primary search (the source defines
`DELIVERY_DATE_ALT_REGEX` identically to `DELIVERY_DATE_REGEX`). -/
def deliveryDateSpec (text : List Char) : List Char :=
  match searchRe DELIVERY_DATE_RE text with
  | some (c, _) => grpL 1 c
  | none =>
      match findSub ALT_MARKER_C text with
      | none => []
      | some i =>
          match searchRe DELIVERY_DATE_RE (segAfter ALT_MARKER_C text i) with
          | some (c, _) => grpL 1 c
          | none => []

/-- Claim C7 (amended): both date extractions return the first date token
following their label and a newline, and fall back to the segment after the
secondary header marker; the delivery fallback keeps the 1-to-2-digit
month/day pattern, but the pickup fallback uses `\d{1,}` (unbounded digit
runs). -/
theorem dateExtractionSpec (text : List Char) :
    extract_pickup_date text = pickupDateSpec text ∧
    extract_delivery_date text = deliveryDateSpec text := by
  have hsep : ALT_MARKER_C ≠ [] := by decide
  constructor
  · simp only [extract_pickup_date, pickupDateSpec]
    cases searchRe PICKUP_DATE_RE text with
    | some c => rfl
    | none =>
        cases hf : findSub ALT_MARKER_C text with
        | none =>
            rw [pySplit_of_none hf]
            norm_num
        | some i =>
            rw [if_pos (pySplit_one_lt_length hsep hf),
              pySplit_getD_one hsep hf]
  · simp only [extract_delivery_date, deliveryDateSpec]
    cases searchRe DELIVERY_DATE_RE text with
    | some c => rfl
    | none =>
        cases hf : findSub ALT_MARKER_C text with
        | none =>
            rw [pySplit_of_none hf]
            norm_num
        | some i =>
            rw [if_pos (pySplit_one_lt_length hsep hf),
              pySplit_getD_one hsep hf]
            rfl

/-! ## The temp cleanup truncation (claim C8) -/

/-- Whether position `p` starts a line (for the `re.MULTILINE` anchor `^`):
position 0 when the scanned string itself begins at a line start (`b`), or
any position right after a `'\n'`. -/
def lineStartAtB (b : Bool) (s : List Char) (p : Nat) : Bool :=
  match p with
  | 0 => b
  | q + 1 => s.getD q ' ' = '\n'

/-- Position `p` is a line start at which the cleanup pattern matches. -/
def truncHit (r : RE) (s : List Char) (b : Bool) (p : Nat) : Bool :=
  lineStartAtB b s p && (matchAt r (s.drop p)).isSome

/-- The first line-start position of `s` at which `r` matches. -/
def truncPos (r : RE) (s : List Char) : Option Nat :=
  (List.range (s.length + 1)).find? (truncHit r s true)

theorem truncateFrom_eq (r : RE) :
    ∀ (s : List Char) (b : Bool),
      truncateFrom r b s =
        match (List.range (s.length + 1)).find? (truncHit r s b) with
        | some p => s.take p
        | none => s := by
  intro s
  induction s with
  | nil =>
      intro b
      cases hf : (List.range 1).find? (truncHit r [] b) <;>
        simp [truncateFrom, hf]
  | cons c rest ih =>
      intro b
      show truncateFrom r b (c :: rest) = _
      rw [List.length_cons, List.range_succ_eq_map]
      by_cases h0 : truncHit r (c :: rest) b 0
      · rw [List.find?_cons_of_pos _ h0]
        have hb : (b && (matchAt r (c :: rest)).isSome) = true := by
          simpa [truncHit, lineStartAtB] using h0
        simp [truncateFrom, hb]
      · rw [List.find?_cons_of_neg _ (by simpa using h0)]
        have hb : (b && (matchAt r (c :: rest)).isSome) = false := by
          have := h0
          simp only [truncHit, lineStartAtB] at this
          simpa using this
        have hcomp : truncHit r (c :: rest) b ∘ Nat.succ =
            truncHit r rest (c = '\n') := by
          funext p
          cases p with
          | zero =>
              simp [truncHit, lineStartAtB, Function.comp]
          | succ q =>
              simp [truncHit, lineStartAtB, Function.comp, List.getD_cons_succ]
        rw [List.find?_map, hcomp]
        simp only [truncateFrom, hb, Bool.false_eq_true, if_false]
        rw [ih (c = '\n')]
        cases hf : (List.range (rest.length + 1)).find? (truncHit r rest (c = '\n')) with
        | some p => simp [hf]
        | none => simp [hf]

/-- The value of `temp` after the three overwriting capture stages of
`_extract_temp`, before the final multiline truncation. -/
def tempBeforeCleanup (text : List Char) : List Char :=
  let t0 : List Char :=
    match searchRe TEMP_RE text with
    | some (c, _) => pyStrip (grpL 1 c)
    | none => []
  let t1 :=
    match searchRe ALTERNATE_TEMP_RE text with
    | some (c, _) => pyStrip (grpL 1 c)
    | none => t0
  match searchRe ALTERNATE_TEMP_RE t1 with
  | some (c, _) => pyStrip (grpL 1 c)
  | none => t1

/-- Claim C8 (amended): after the capture stages the cleanup truncates the
captured temp string at the first position that starts a line and at which
`TEMP_CLEANUP_REGEX` matches — a pattern that differs from the tokenizer's
row pattern `REGEX` (no optional three-letter group, an extra all-numeric
branch, and prefix rather than whole-line matching) — discarding that line
and everything after it, then right-stripping; a line need not match the
row pattern to be removed. -/
theorem tempCleanupTruncation (text : List Char) :
    extract_temp text =
      pyRstrip
        (match truncPos TEMP_CLEANUP_RE (tempBeforeCleanup text) with
         | some p => (tempBeforeCleanup text).take p
         | none => tempBeforeCleanup text) := by
  have h : extract_temp text =
      pyRstrip (truncateFrom TEMP_CLEANUP_RE true (tempBeforeCleanup text)) := rfl
  rw [h, truncateFrom_eq]
  rfl

/-- The cleanup as claim C8 states it: keep every line up to (but not
including) the first line matching the row pattern `REGEX`. -/
def claimC8Temp (text : List Char) : List Char :=
  pyRstrip (List.intercalate ['\n']
    ((pySplitlines (tempBeforeCleanup text)).takeWhile
      (fun l => (rowMatch l).isNone)))

/-- A document whose temp capture ends with the line `1,000 2 3 4`. -/
def tX8 : List Char :=
  "Item Desc.PU Number D Number Apt IDSAP Order#keep\n1,000 2 3 4\nPallets".data

/-- Counterexample to claim C8 as stated: on `tX8` the captured temp value
is `keep\n1,000 2 3 4`; the line `1,000 2 3 4` does not match the row
pattern, so under the claim the cleanup would keep it, yet the code's
cleanup pattern (its all-numeric branch) removes it, leaving `keep`. -/
theorem tempCleanup_cex :
    extract_temp tX8 = "keep".data ∧
    claimC8Temp tX8 = "keep\n1,000 2 3 4".data ∧
    (rowMatch "1,000 2 3 4".data).isNone :=
  ⟨by decide, by decide, by decide⟩
